import Mathlib

/-!
Shallow embedding, in Lean, of the key-management, request-queue,
request-mutation and response-classification code of the LLM reverse
proxy, together with proofs and refutations of the specification claims
C1-C10.

Conventions used throughout:
* JS timestamps (`Date.now()`, `lastUsed`, `rateLimitedUntil`, ...) are
  modelled as `Int` (milliseconds since epoch).
* JS floating-point quantities that the claims reason about exactly
  (EMA coefficients, the tokens punishment factor) are modelled as `ℚ`.
* `Array.prototype.sort` with a consistent comparator is a stable sort;
  it is modelled with `List.mergeSort` on the relation `cmp a b ≤ 0`.
* Model-name-to-family maps (`getOpenAIModelFamily`, ...) are passed as
  function parameters: the claims treat `family(model)` abstractly.
-/

namespace OaiProxy

/-- Shared credential record, from `interface Key` in
`src/shared/key-management/index.ts`.  The secret itself is irrelevant to
every claim and is omitted; `hash` identifies the key as in the source. -/
structure Key where
  hash : String
  modelFamilies : List String
  isDisabled : Bool
  isRevoked : Bool
  promptCount : Int
  lastUsed : Int
  lastChecked : Int
  rateLimitedAt : Int
  rateLimitedUntil : Int
deriving Repr, DecidableEq

/-- The comparator body of `prioritizeKeys` in
`src/shared/key-management/prioritize-keys.ts` (lines 22-38).  `toKey`
projects the provider-specific record to its shared `Key` part (the
source writes `T extends Key`).  An absent `customComparator` is the
zero comparator: the source consults the custom comparator only when its
result is nonzero, so passing `fun _ _ => 0` is the same as omitting it. -/
def compareKeys {α : Type} (toKey : α → Key) (custom : α → α → Int) (now : Int)
    (a b : α) : Int :=
  if now < (toKey a).rateLimitedUntil ∧ ¬ now < (toKey b).rateLimitedUntil then 1
  else if ¬ now < (toKey a).rateLimitedUntil ∧ now < (toKey b).rateLimitedUntil then -1
  else if now < (toKey a).rateLimitedUntil ∧ now < (toKey b).rateLimitedUntil then
    (toKey a).rateLimitedUntil - (toKey b).rateLimitedUntil
  else if custom a b ≠ 0 then custom a b
  else (toKey a).lastUsed - (toKey b).lastUsed

/-- `prioritizeKeys` from `src/shared/key-management/prioritize-keys.ts`:
a stable sort of the keys by the comparator above. -/
def prioritizeKeys {α : Type} (toKey : α → Key) (custom : α → α → Int) (now : Int)
    (keys : List α) : List α :=
  keys.mergeSort fun a b => decide (compareKeys toKey custom now a b ≤ 0)

/-- Lexicographic measure for the comparator, first level: rate-limited
keys rank 1, others rank 0. -/
def keyRank {α : Type} (toKey : α → Key) (now : Int) (x : α) : Int :=
  if now < (toKey x).rateLimitedUntil then 1 else 0

/-- Second level of the lexicographic measure: `rateLimitedUntil` for
rate-limited keys, the tiebreaker score for the rest. -/
def keyM2 {α : Type} (toKey : α → Key) (f : α → Int) (now : Int) (x : α) : Int :=
  if now < (toKey x).rateLimitedUntil then (toKey x).rateLimitedUntil else f x

/-- Third level of the lexicographic measure: constant for rate-limited
keys, `lastUsed` for the rest. -/
def keyM3 {α : Type} (toKey : α → Key) (now : Int) (x : α) : Int :=
  if now < (toKey x).rateLimitedUntil then 0 else (toKey x).lastUsed

theorem compareKeys_le_iff {α : Type} (toKey : α → Key) (f : α → Int) (now : Int)
    (a b : α) :
    compareKeys toKey (fun x y => f x - f y) now a b ≤ 0 ↔
      (keyRank toKey now a < keyRank toKey now b ∨
        (keyRank toKey now a = keyRank toKey now b ∧
          (keyM2 toKey f now a < keyM2 toKey f now b ∨
            (keyM2 toKey f now a = keyM2 toKey f now b ∧
              keyM3 toKey now a ≤ keyM3 toKey now b)))) := by
  by_cases ha : now < (toKey a).rateLimitedUntil <;>
    by_cases hb : now < (toKey b).rateLimitedUntil <;>
    simp [compareKeys, keyRank, keyM2, keyM3, ha, hb] <;>
    omega

theorem compareKeys_le_trans {α : Type} (toKey : α → Key) (f : α → Int) (now : Int)
    (a b c : α)
    (hab : compareKeys toKey (fun x y => f x - f y) now a b ≤ 0)
    (hbc : compareKeys toKey (fun x y => f x - f y) now b c ≤ 0) :
    compareKeys toKey (fun x y => f x - f y) now a c ≤ 0 := by
  rw [compareKeys_le_iff] at hab hbc ⊢
  omega

theorem compareKeys_le_total {α : Type} (toKey : α → Key) (f : α → Int) (now : Int)
    (a b : α) :
    compareKeys toKey (fun x y => f x - f y) now a b ≤ 0 ∨
      compareKeys toKey (fun x y => f x - f y) now b a ≤ 0 := by
  rw [compareKeys_le_iff, compareKeys_le_iff]
  omega

theorem compareKeys_le_imp {α : Type} (toKey : α → Key) (f : α → Int) (now : Int)
    (a b : α) (h : compareKeys toKey (fun x y => f x - f y) now a b ≤ 0) :
    (now < (toKey a).rateLimitedUntil → now < (toKey b).rateLimitedUntil) ∧
      (now < (toKey a).rateLimitedUntil → now < (toKey b).rateLimitedUntil →
        (toKey a).rateLimitedUntil ≤ (toKey b).rateLimitedUntil) ∧
      (¬ now < (toKey a).rateLimitedUntil → ¬ now < (toKey b).rateLimitedUntil →
        f a ≤ f b ∧ (f a = f b → (toKey a).lastUsed ≤ (toKey b).lastUsed)) := by
  rw [compareKeys_le_iff] at h
  by_cases ha : now < (toKey a).rateLimitedUntil <;>
    by_cases hb : now < (toKey b).rateLimitedUntil <;>
    simp only [keyRank, keyM2, keyM3, ha, hb, if_pos, if_neg, if_true, if_false] at h <;>
    refine ⟨fun h1 => ?_, fun h1 h2 => ?_, fun h1 h2 => ⟨?_, fun h3 => ?_⟩⟩ <;>
    omega

/-- Claim C7 (amended): `prioritizeKeys` permutes the input and orders it
so that, for any key `a` placed before a key `b`: a rate-limited key never
precedes a non-rate-limited one; among rate-limited keys the earlier
`rateLimitedUntil` comes first; and among keys that are NOT rate-limited
the caller-supplied tiebreaker (a difference of scores `f`) decides, with
remaining ties broken by smaller `lastUsed`.  Among rate-limited keys with
equal `rateLimitedUntil` the tiebreaker and `lastUsed` are not consulted
(the comparator returns 0 there, so the stable sort keeps input order). -/
theorem C7_amended {α : Type} (toKey : α → Key) (f : α → Int) (now : Int)
    (keys : List α) :
    (prioritizeKeys toKey (fun x y => f x - f y) now keys).Perm keys ∧
      (prioritizeKeys toKey (fun x y => f x - f y) now keys).Pairwise (fun a b =>
        (now < (toKey a).rateLimitedUntil → now < (toKey b).rateLimitedUntil) ∧
          (now < (toKey a).rateLimitedUntil → now < (toKey b).rateLimitedUntil →
            (toKey a).rateLimitedUntil ≤ (toKey b).rateLimitedUntil) ∧
          (¬ now < (toKey a).rateLimitedUntil → ¬ now < (toKey b).rateLimitedUntil →
            f a ≤ f b ∧ (f a = f b → (toKey a).lastUsed ≤ (toKey b).lastUsed))) := by
  constructor
  · exact List.mergeSort_perm keys _
  · have hs := @List.sorted_mergeSort _
      (fun a b => decide (compareKeys toKey (fun x y => f x - f y) now a b ≤ 0))
      (fun a b c hab hbc => by
        simpa using compareKeys_le_trans toKey f now a b c (by simpa using hab)
          (by simpa using hbc))
      (fun a b => by simpa using compareKeys_le_total toKey f now a b)
      keys
    exact hs.imp fun h => compareKeys_le_imp toKey f now _ _ (by simpa using h)

/-- The key order asserted by claim C7, read off the wording of the spec
(section 4.1) as a lexicographic order: (1) not rate-limited before
rate-limited, (2) among rate-limited earliest `rateLimitedUntil` first,
(3) the caller-supplied tiebreaker next, (4) remaining ties broken by
smaller `lastUsed`.  Stated only to be compared with the code order. -/
def specClaimC7Le {α : Type} (toKey : α → Key) (custom : α → α → Int) (now : Int)
    (a b : α) : Prop :=
  if now < (toKey a).rateLimitedUntil ∧ ¬ now < (toKey b).rateLimitedUntil then False
  else if ¬ now < (toKey a).rateLimitedUntil ∧ now < (toKey b).rateLimitedUntil then True
  else if now < (toKey a).rateLimitedUntil ∧
      (toKey a).rateLimitedUntil ≠ (toKey b).rateLimitedUntil then
    (toKey a).rateLimitedUntil < (toKey b).rateLimitedUntil
  else if custom a b ≠ 0 then custom a b < 0
  else (toKey a).lastUsed ≤ (toKey b).lastUsed

instance {α : Type} (toKey : α → Key) (custom : α → α → Int) (now : Int) (a b : α) :
    Decidable (specClaimC7Le toKey custom now a b) := by
  unfold specClaimC7Le; infer_instance

/-- A rate-limited key whose `lastUsed` is larger than its tied partner. -/
def kCexA : Key :=
  { hash := "aaaaaaaa", modelFamilies := ["claude"], isDisabled := false
    isRevoked := false, promptCount := 0, lastUsed := 5, lastChecked := 0
    rateLimitedAt := 0, rateLimitedUntil := 100 }

/-- A rate-limited key tied with `kCexA` on `rateLimitedUntil` but less
recently used. -/
def kCexB : Key :=
  { hash := "bbbbbbbb", modelFamilies := ["claude"], isDisabled := false
    isRevoked := false, promptCount := 0, lastUsed := 3, lastChecked := 0
    rateLimitedAt := 0, rateLimitedUntil := 100 }

/-- Claim C7 counterexample: on two rate-limited keys with equal
`rateLimitedUntil` and `lastUsed` 5 and 3, the code keeps input order
`[kCexA, kCexB]`, but the order claimed by the spec requires the
less-recently-used `kCexB` first, so the output is not sorted by the
claimed order. -/
theorem C7_counterexample :
    ¬ (prioritizeKeys (id : Key → Key) (fun _ _ => 0) 0 [kCexA, kCexB]).Pairwise
        (specClaimC7Le (id : Key → Key) (fun _ _ => 0) 0) := by
  have hout : prioritizeKeys (id : Key → Key) (fun _ _ => 0) 0 [kCexA, kCexB]
      = [kCexA, kCexB] := by
    simp [prioritizeKeys, List.mergeSort, compareKeys, kCexA, kCexB]
  rw [hout]
  intro h
  have := (List.pairwise_cons.mp h).1 kCexB (by simp)
  simp [specClaimC7Le, kCexA, kCexB] at this

/-! ### Claim C3: lockout periods -/

/-- The candidate filter used by the lockout computations: the key is not
disabled and serves the family (`!k.isDisabled && (!family ||
k.modelFamilies.includes(family))` with the family always supplied). -/
def enabledInFamily (family : String) (k : Key) : Bool :=
  !k.isDisabled && k.modelFamilies.contains family

/-- Common shape of the lockout computations: `thresh k` is the instant
until which key `k` counts as rate-limited.  `Math.min(...)` over the
nonempty mapped list is a left fold of `min`; the `[]` branch is
unreachable because the empty case returns 0 earlier. -/
def lockoutCore {κ : Type} (thresh : κ → Int) (p : κ → Bool) (keys : List κ)
    (now : Int) : Int :=
  let activeKeys := keys.filter p
  if activeKeys.length = 0 then 0
  else if (activeKeys.filter fun k => decide (now < thresh k)).length
      < activeKeys.length then 0
  else
    match activeKeys.map fun k => thresh k - now with
    | [] => 0
    | x :: xs => xs.foldl min x

/-- `createGenericGetLockoutPeriod` from
`src/shared/key-management/index.ts` (lines 598-617), applied to a given
family: 0 when no active key exists or some active key is not
rate-limited, otherwise the minimum of `rateLimitedUntil - now`. -/
def createGenericGetLockoutPeriod (keys : List Key) (family : String) (now : Int) :
    Int :=
  lockoutCore (fun k => k.rateLimitedUntil) (enabledInFamily family) keys now

/-- OpenAI credential record (`OpenAIKey` interface in
`src/shared/key-management/openai/provider.ts`), restricted to the fields
the claims use. -/
structure OpenAIKey extends Key where
  isTrial : Bool
  isOverQuota : Bool
  rateLimitRequestsReset : Int
  rateLimitTokensReset : Int
  modelIds : List String
deriving Repr, DecidableEq

/-- The reset window OpenAI keys advertise: the larger of the two
`X-RateLimit-*-Reset` headers. -/
def openaiResetTime (k : OpenAIKey) : Int :=
  max k.rateLimitRequestsReset k.rateLimitTokensReset

/-- `OpenAIKeyProvider.getLockoutPeriod` (provider source lines 423-467):
unlike the generic version it treats a key as rate-limited iff
`now < rateLimitedAt + min(20000, max(requestsReset, tokensReset))`, and
never consults `rateLimitedUntil`. -/
def OpenAIKeyProvider.getLockoutPeriod (keys : List OpenAIKey) (family : String)
    (now : Int) : Int :=
  lockoutCore (fun k => k.rateLimitedAt + min 20000 (openaiResetTime k))
    (fun k => enabledInFamily family k.toKey) keys now

theorem foldl_min_le (x : Int) (xs : List Int) : ∀ y ∈ x :: xs, xs.foldl min x ≤ y := by
  induction xs generalizing x with
  | nil => intro y hy; simp at hy; simp [hy]
  | cons z zs ih =>
    intro y hy
    have h := ih (min x z)
    simp only [List.foldl_cons]
    rcases List.mem_cons.mp hy with rfl | hy2
    · exact le_trans (h _ (List.mem_cons_self _ _)) (min_le_left _ _)
    · rcases List.mem_cons.mp hy2 with rfl | hy3
      · exact le_trans (h _ (List.mem_cons_self _ _)) (min_le_right _ _)
      · exact h _ (List.mem_cons_of_mem _ hy3)

theorem foldl_min_mem (x : Int) (xs : List Int) : xs.foldl min x ∈ x :: xs := by
  induction xs generalizing x with
  | nil => simp
  | cons z zs ih =>
    simp only [List.foldl_cons]
    have h := ih (min x z)
    rcases List.mem_cons.mp h with heq | hmem
    · rcases min_cases x z with ⟨hv, _⟩ | ⟨hv, _⟩ <;> rw [heq, hv] <;> simp
    · exact List.mem_cons_of_mem _ (List.mem_cons_of_mem _ hmem)

theorem lockoutCore_eq_zero_iff {κ : Type} (thresh : κ → Int) (p : κ → Bool)
    (keys : List κ) (now : Int) :
    lockoutCore thresh p keys now = 0 ↔
      (∀ k ∈ keys, ¬ p k = true) ∨ ∃ k ∈ keys, p k = true ∧ thresh k ≤ now := by
  by_cases hempty : keys.filter p = []
  · have hz : lockoutCore thresh p keys now = 0 := by
      simp [lockoutCore, hempty]
    rw [List.filter_eq_nil_iff] at hempty
    rw [hz]
    exact iff_of_true rfl (Or.inl hempty)
  · unfold lockoutCore
    have hlen : (keys.filter p).length ≠ 0 := by
      simpa [List.length_eq_zero] using hempty
    rw [if_neg hlen]
    by_cases hsome : ∃ k ∈ keys.filter p, ¬ now < thresh k
    · have hlt : ((keys.filter p).filter fun k => decide (now < thresh k)).length
          < (keys.filter p).length := by
        obtain ⟨k, hk, hnk⟩ := hsome
        refine List.length_filter_lt_length_iff_exists.mpr ⟨k, hk, by simpa using hnk⟩
      rw [if_pos hlt]
      simp only [true_iff]
      obtain ⟨k, hk, hnk⟩ := hsome
      exact Or.inr ⟨k, (List.mem_filter.mp hk).1, (List.mem_filter.mp hk).2, by omega⟩
    · push_neg at hsome
      have hall : ∀ k ∈ keys.filter p, now < thresh k := hsome
      have hnlt : ¬ ((keys.filter p).filter fun k => decide (now < thresh k)).length
          < (keys.filter p).length := by
        have : (keys.filter p).filter (fun k => decide (now < thresh k))
            = keys.filter p := by
          rw [List.filter_eq_self]
          intro k hk; simpa using hall k hk
        rw [this]
        omega
      rw [if_neg hnlt]
      obtain ⟨k0, ks, hcons⟩ := List.exists_cons_of_ne_nil hempty
      rw [hcons]
      simp only [List.map_cons]
      constructor
      · intro hzero
        exfalso
        have hmem := foldl_min_mem (thresh k0 - now) (ks.map fun k => thresh k - now)
        rw [hzero] at hmem
        rcases List.mem_cons.mp hmem with heq | hmem2
        · have := hall k0 (by rw [hcons]; exact List.mem_cons_self _ _)
          omega
        · obtain ⟨k, hk, hkeq⟩ := List.mem_map.mp hmem2
          have := hall k (by rw [hcons]; exact List.mem_cons_of_mem _ hk)
          omega
      · intro h
        exfalso
        rcases h with hnone | ⟨k, hk, hpk, hle⟩
        · exact hnone k0 (List.mem_filter.mp (by rw [hcons]; exact List.mem_cons_self _ _)).1
            (List.mem_filter.mp (by rw [hcons]; exact List.mem_cons_self _ _)).2
        · have hkin : k ∈ keys.filter p := List.mem_filter.mpr ⟨hk, hpk⟩
          have := hall k hkin
          omega

theorem lockoutCore_min {κ : Type} (thresh : κ → Int) (p : κ → Bool)
    (keys : List κ) (now : Int)
    (hne : ∃ k ∈ keys, p k = true)
    (hall : ∀ k ∈ keys, p k = true → now < thresh k) :
    (∃ k ∈ keys, p k = true ∧ lockoutCore thresh p keys now = thresh k - now) ∧
      ∀ k ∈ keys, p k = true → lockoutCore thresh p keys now ≤ thresh k - now := by
  have hfilterne : keys.filter p ≠ [] := by
    obtain ⟨k, hk, hpk⟩ := hne
    intro hnil
    have : k ∈ keys.filter p := List.mem_filter.mpr ⟨hk, hpk⟩
    rw [hnil] at this
    exact absurd this (List.not_mem_nil k)
  have hallf : ∀ k ∈ keys.filter p, now < thresh k := fun k hk =>
    hall k (List.mem_filter.mp hk).1 (List.mem_filter.mp hk).2
  have hres : lockoutCore thresh p keys now
      ∈ (keys.filter p).map fun k => thresh k - now := by
    unfold lockoutCore
    have hlen : (keys.filter p).length ≠ 0 := by
      simpa [List.length_eq_zero] using hfilterne
    rw [if_neg hlen]
    have hfe : (keys.filter p).filter (fun k => decide (now < thresh k))
        = keys.filter p := by
      rw [List.filter_eq_self]; intro k hk; simpa using hallf k hk
    rw [if_neg (by rw [hfe]; omega)]
    obtain ⟨k0, ks, hcons⟩ := List.exists_cons_of_ne_nil hfilterne
    rw [hcons]
    simp only [List.map_cons]
    exact foldl_min_mem _ _
  have hle : ∀ k ∈ keys.filter p,
      lockoutCore thresh p keys now ≤ thresh k - now := by
    intro k hk
    unfold lockoutCore
    have hlen : (keys.filter p).length ≠ 0 := by
      simpa [List.length_eq_zero] using hfilterne
    rw [if_neg hlen]
    have hfe : (keys.filter p).filter (fun k => decide (now < thresh k))
        = keys.filter p := by
      rw [List.filter_eq_self]; intro k hk2; simpa using hallf k hk2
    rw [if_neg (by rw [hfe]; omega)]
    obtain ⟨k0, ks, hcons⟩ := List.exists_cons_of_ne_nil hfilterne
    rw [hcons]
    simp only [List.map_cons]
    apply foldl_min_le
    rw [hcons] at hk
    rcases List.mem_cons.mp hk with rfl | hk2
    · exact List.mem_cons_self _ _
    · exact List.mem_cons_of_mem _ (List.mem_map.mpr ⟨k, hk2, rfl⟩)
  refine ⟨?_, fun k hk hpk => hle k (List.mem_filter.mpr ⟨hk, hpk⟩)⟩
  obtain ⟨v, hv, hveq⟩ := List.mem_map.mp hres
  exact ⟨v, (List.mem_filter.mp hv).1, (List.mem_filter.mp hv).2, hveq.symm⟩

/-- Claim C3 (amended): for providers using the generic implementation
(AWS, Azure, Mistral, Google AI, ...), `getLockoutPeriod(family)` is 0 iff
some enabled key serving the family has `rateLimitedUntil ≤ now` or the
family has no enabled keys, and otherwise equals the minimum of
`rateLimitedUntil - now` over those keys.  The OpenAI provider instead
decides rate-limiting with the instant
`rateLimitedAt + min(20000, max(rateLimitRequestsReset,
rateLimitTokensReset))` and takes its minima over that expression;
`rateLimitedUntil` is never consulted. -/
theorem C3_amended (keys : List Key) (okeys : List OpenAIKey) (family : String)
    (now : Int) :
    (createGenericGetLockoutPeriod keys family now = 0 ↔
      (∀ k ∈ keys, ¬ enabledInFamily family k = true) ∨
        ∃ k ∈ keys, enabledInFamily family k = true ∧ k.rateLimitedUntil ≤ now) ∧
    ((∃ k ∈ keys, enabledInFamily family k = true) →
      (∀ k ∈ keys, enabledInFamily family k = true → now < k.rateLimitedUntil) →
      (∃ k ∈ keys, enabledInFamily family k = true ∧
          createGenericGetLockoutPeriod keys family now = k.rateLimitedUntil - now) ∧
        ∀ k ∈ keys, enabledInFamily family k = true →
          createGenericGetLockoutPeriod keys family now ≤ k.rateLimitedUntil - now) ∧
    (OpenAIKeyProvider.getLockoutPeriod okeys family now = 0 ↔
      (∀ k ∈ okeys, ¬ enabledInFamily family k.toKey = true) ∨
        ∃ k ∈ okeys, enabledInFamily family k.toKey = true ∧
          k.rateLimitedAt + min 20000 (openaiResetTime k) ≤ now) := by
  refine ⟨?_, ?_, ?_⟩
  · exact lockoutCore_eq_zero_iff _ _ keys now
  · intro hne hall
    exact lockoutCore_min _ _ keys now hne hall
  · exact lockoutCore_eq_zero_iff
      (fun k => k.rateLimitedAt + min 20000 (openaiResetTime k))
      (fun k => enabledInFamily family k.toKey) okeys now

/-- Witness for the hypotheses of the amended C3: one enabled rate-limited
key, lockout equals its remaining window. -/
def kC3W : Key :=
  { hash := "aaaaaaaa", modelFamilies := ["claude"], isDisabled := false
    isRevoked := false, promptCount := 0, lastUsed := 0, lastChecked := 0
    rateLimitedAt := 3, rateLimitedUntil := 10 }

theorem C3_amended_witness :
    (∃ k ∈ [kC3W], enabledInFamily "claude" k = true ∧
        createGenericGetLockoutPeriod [kC3W] "claude" 3 = k.rateLimitedUntil - 3) ∧
      ∀ k ∈ [kC3W], enabledInFamily "claude" k = true →
        createGenericGetLockoutPeriod [kC3W] "claude" 3 ≤ k.rateLimitedUntil - 3 :=
  (C3_amended [kC3W] [] "claude" 3).2.1 (by decide) (by decide)

/-- An OpenAI key that is rate-limited per `rateLimitedUntil` but whose
header-derived window (capped at 20 s) has already elapsed. -/
def kC3Cex : OpenAIKey :=
  { hash := "oai-cafe0000", modelFamilies := ["gpt4o"], isDisabled := false
    isRevoked := false, promptCount := 0, lastUsed := 0, lastChecked := 0
    rateLimitedAt := 100000, rateLimitedUntil := 160000, isTrial := false
    isOverQuota := false, rateLimitRequestsReset := 60000
    rateLimitTokensReset := 0, modelIds := ["gpt-4o"] }

/-- Claim C3 counterexample: the single enabled OpenAI key still has
`rateLimitedUntil = 160000 > now = 130000`, yet the provider's
`getLockoutPeriod` returns 0 because it uses `rateLimitedAt + min(20000,
resetTime) = 120000 ≤ now` instead of `rateLimitedUntil`.  The claim
requires a nonzero result here. -/
theorem C3_counterexample :
    OpenAIKeyProvider.getLockoutPeriod [kC3Cex] "gpt4o" 130000 = 0 ∧
      ¬ kC3Cex.isDisabled = true ∧
      enabledInFamily "gpt4o" kC3Cex.toKey = true ∧
      (130000 : Int) < kC3Cex.rateLimitedUntil := by
  refine ⟨?_, by decide, by decide, by decide⟩
  decide

/-! ### Claim C2: key selection and the post-selection throttle -/

/-- JS `String.prototype.includes` on character lists: `needle` occurs as
a contiguous substring of `hay`. -/
def hasSubstr (hay needle : List Char) : Bool :=
  needle.isPrefixOf hay ||
    match hay with
    | [] => false
    | _ :: t => hasSubstr t needle

/-- JS `s.includes(sub)`. -/
def strIncludes (s sub : String) : Bool :=
  hasSubstr s.data sub.data

/-- In-place mutation of the key found by
`this.keys.find(k => k.hash === hash)`: replace the first key in the pool
whose hash matches. -/
def poolUpdate {κ : Type} (hash : κ → String) (h : String) (f : κ → κ) :
    List κ → List κ
  | [] => []
  | k :: ks => if hash k == h then f k :: ks else k :: poolUpdate hash h f ks

theorem find?_poolUpdate {κ : Type} (hash : κ → String) (h : String) (f : κ → κ)
    (hf : ∀ k, hash (f k) = hash k) (ks : List κ) :
    (poolUpdate hash h f ks).find? (fun k => hash k == h)
      = (ks.find? fun k => hash k == h).map f := by
  induction ks with
  | nil => rfl
  | cons k t ih =>
    by_cases hk : hash k == h
    · simp [poolUpdate, hk, List.find?_cons, hf]
    · simp only [poolUpdate, hk, if_neg, Bool.false_eq_true, not_false_eq_true,
        if_false]
      rw [List.find?_cons_of_neg _ (by simpa using hk),
        List.find?_cons_of_neg _ (by simpa using hk)]
      exact ih

theorem find?_hash_of_pairwise {κ : Type} (hash : κ → String) (ks : List κ)
    (hp : ks.Pairwise fun a b => hash a ≠ hash b) (x : κ) (hx : x ∈ ks) :
    ks.find? (fun k => hash k == hash x) = some x := by
  induction ks with
  | nil => exact absurd hx (List.not_mem_nil x)
  | cons k t ih =>
    rcases List.pairwise_cons.mp hp with ⟨hhead, htail⟩
    by_cases hk : hash k = hash x
    · rw [List.find?_cons_of_pos _ (by simpa using hk)]
      rcases List.mem_cons.mp hx with rfl | hxt
      · rfl
      · exact absurd hk (hhead x hxt)
    · rw [List.find?_cons_of_neg _ (by simpa using hk)]
      rcases List.mem_cons.mp hx with rfl | hxt
      · exact absurd rfl hk
      · exact ih htail hxt

/-- `KEY_REUSE_DELAY` of the OpenAI provider (1000 ms). -/
def OPENAI_KEY_REUSE_DELAY : Int := 1000

/-- `OpenAIKeyProvider.throttle` (provider source lines 533-548): when the
natural rate limit `max(requestsReset, tokensReset) + rateLimitedAt`
extends beyond `now + KEY_REUSE_DELAY` the throttle is skipped entirely;
otherwise the key is restamped to be rate-limited for exactly
`KEY_REUSE_DELAY` (no maximum is taken with `rateLimitedUntil`). -/
def OpenAIKeyProvider.throttle (now : Int) (k : OpenAIKey) : OpenAIKey :=
  if openaiResetTime k + k.rateLimitedAt > now + OPENAI_KEY_REUSE_DELAY then k
  else
    { k with
      rateLimitedAt := now
      rateLimitRequestsReset := OPENAI_KEY_REUSE_DELAY
      rateLimitedUntil := now + OPENAI_KEY_REUSE_DELAY }

/-- The candidate filter in `OpenAIKeyProvider.get` (lines 349-356):
enabled, serving the family, not an excluded trial, and (only when key
checking is on) listing the requested snapshot in `modelIds`. -/
def openaiKeyFilter (checkKeys : Bool) (model neededFamily : String)
    (excludeTrials : Bool) (k : OpenAIKey) : Bool :=
  !k.isDisabled && k.modelFamilies.contains neededFamily &&
    (!excludeTrials || !k.isTrial) && (!checkKeys || k.modelIds.contains model)

/-- Common shape of the provider `get` methods: filter the candidates,
sort them with `prioritizeKeys`, take the first, stamp `lastUsed` on the
pool record found by hash, throttle it, and return the resulting pool
record (the source returns a shallow copy of it) with the updated pool.
`none` models the thrown `PaymentRequiredError`. -/
def providerGet {κ : Type} (hash : κ → String) (toKey : κ → Key) (flt : κ → Bool)
    (custom : κ → κ → Int) (stamp thr : κ → κ) (now : Int) (keys : List κ) :
    Option (κ × List κ) :=
  (prioritizeKeys toKey custom now (keys.filter flt)).head?.bind fun selected =>
    ((poolUpdate hash (hash selected) thr
        (poolUpdate hash (hash selected) stamp keys)).find?
      (fun k => hash k == hash selected)).map fun kk =>
        (kk, poolUpdate hash (hash selected) thr
          (poolUpdate hash (hash selected) stamp keys))

/-- `OpenAIKeyProvider.get` (lines 343-373).  `getFam` abstracts
`getOpenAIModelFamily`; trials are excluded only for the embeddings
model; the tiebreaker prefers non-trial keys (`+a.isTrial - +b.isTrial`).
Key hashes are unique by construction (sha256 of deduplicated secrets),
which makes the by-hash `find` hit the selected key. -/
def OpenAIKeyProvider.get (checkKeys : Bool) (getFam : String → String)
    (now : Int) (model : String) (keys : List OpenAIKey) :
    Option (OpenAIKey × List OpenAIKey) :=
  providerGet (fun k => k.hash) (fun k => k.toKey)
    (openaiKeyFilter checkKeys model (getFam model)
      (model == "text-embedding-ada-002"))
    (fun a b => (if a.isTrial then 1 else 0) - (if b.isTrial then 1 else 0))
    (fun k => { k with lastUsed := now }) (OpenAIKeyProvider.throttle now)
    now keys

/-- AWS logging probe status. -/
inductive AwsLoggingStatus
  | unknown
  | disabled
  | enabled
deriving Repr, DecidableEq

/-- AWS Bedrock credential record (`AwsBedrockKey` interface in
`src/shared/key-management/aws/provider.ts`). -/
structure AwsBedrockKey extends Key where
  awsLoggingStatus : AwsLoggingStatus
  modelIds : List String
  inferenceProfileIds : List String
deriving Repr, DecidableEq

/-- `KEY_REUSE_DELAY` of the AWS provider (250 ms). -/
def AWS_KEY_REUSE_DELAY : Int := 250

/-- `RATE_LIMIT_LOCKOUT` of the AWS provider (5000 ms). -/
def AWS_RATE_LIMIT_LOCKOUT : Int := 5000

/-- `AwsBedrockKeyProvider.throttle` (provider source lines 212-221):
unconditionally advances `rateLimitedUntil` to the larger of its current
value and `now + KEY_REUSE_DELAY`. -/
def AwsBedrockKeyProvider.throttle (now : Int) (k : AwsBedrockKey) : AwsBedrockKey :=
  { k with
    rateLimitedAt := now
    rateLimitedUntil := max k.rateLimitedUntil (now + AWS_KEY_REUSE_DELAY) }

/-- The candidate filter in `AwsBedrockKeyProvider.get` (lines 109-121). -/
def awsKeyFilter (allowAwsLogging : Bool) (neededFamily neededVariantId : String)
    (k : AwsBedrockKey) : Bool :=
  !k.isDisabled &&
    (allowAwsLogging || !(k.awsLoggingStatus == AwsLoggingStatus.enabled)) &&
    k.modelFamilies.contains neededFamily &&
    k.modelIds.any (fun m => strIncludes m neededVariantId)

/-- `AwsBedrockKeyProvider.get` (lines 100-158).  `getFam` abstracts
`getAwsBedrockModelFamily`, and the tiebreaker prefers keys with an
inference profile containing the model. -/
def AwsBedrockKeyProvider.get (allowAwsLogging : Bool) (getFam : String → String)
    (now : Int) (model : String) (keys : List AwsBedrockKey) :
    Option (AwsBedrockKey × List AwsBedrockKey) :=
  providerGet (fun k => k.hash) (fun k => k.toKey)
    (awsKeyFilter allowAwsLogging (getFam model)
      (if strIncludes model "claude-2" then "claude-v2" else model))
    (fun a b =>
      (if a.inferenceProfileIds.any (fun p => strIncludes p model) then 1 else 0)
        - (if b.inferenceProfileIds.any (fun p => strIncludes p model) then 1 else 0))
    (fun k => { k with lastUsed := now }) (AwsBedrockKeyProvider.throttle now)
    now keys

theorem prioritizeKeys_perm {α : Type} (toKey : α → Key) (custom : α → α → Int)
    (now : Int) (keys : List α) :
    (prioritizeKeys toKey custom now keys).Perm keys :=
  List.mergeSort_perm keys _

/-- Anatomy of a successful `providerGet`: the returned key is the
throttled, `lastUsed`-stamped version of a pool key satisfying the
filter, and it is a record of the returned pool. -/
theorem providerGet_spec {κ : Type} (hash : κ → String) (toKey : κ → Key)
    (flt : κ → Bool) (custom : κ → κ → Int) (stamp thr : κ → κ) (now : Int)
    (keys : List κ)
    (hstamp : ∀ k, hash (stamp k) = hash k) (hthr : ∀ k, hash (thr k) = hash k)
    (hp : keys.Pairwise fun a b => hash a ≠ hash b) :
    ∀ k pool2, providerGet hash toKey flt custom stamp thr now keys = some (k, pool2) →
      ∃ selected ∈ keys, flt selected = true ∧ k = thr (stamp selected) ∧ k ∈ pool2 := by
  intro k pool2 heq
  unfold providerGet at heq
  cases hsort : prioritizeKeys toKey custom now (keys.filter flt) with
  | nil => rw [hsort] at heq; exact absurd heq (by simp)
  | cons selected rest =>
    rw [hsort] at heq
    simp only [List.head?_cons, Option.bind_some, Option.some_bind] at heq
    have hsel : selected ∈ keys.filter flt := by
      have hmem : selected ∈ prioritizeKeys toKey custom now (keys.filter flt) := by
        rw [hsort]; exact List.mem_cons_self _ _
      exact (prioritizeKeys_perm toKey custom now (keys.filter flt)).subset hmem
    have hskeys : selected ∈ keys := (List.mem_filter.mp hsel).1
    have hsflt : flt selected = true := (List.mem_filter.mp hsel).2
    have hfind : (poolUpdate hash (hash selected) thr
        (poolUpdate hash (hash selected) stamp keys)).find?
        (fun kk => hash kk == hash selected) = some (thr (stamp selected)) := by
      rw [find?_poolUpdate hash _ thr hthr, find?_poolUpdate hash _ stamp hstamp,
        find?_hash_of_pairwise hash keys hp selected hskeys]
      rfl
    rw [hfind] at heq
    have heq2 : thr (stamp selected) = k ∧ poolUpdate hash (hash selected) thr
        (poolUpdate hash (hash selected) stamp keys) = pool2 := by
      simpa using heq
    obtain ⟨hk, hpool⟩ := heq2
    refine ⟨selected, hskeys, hsflt, hk.symm, ?_⟩
    rw [← hpool, ← hk]
    exact List.mem_of_find?_eq_some hfind

theorem openaiThrottle_hash (now : Int) (k : OpenAIKey) :
    (OpenAIKeyProvider.throttle now k).hash = k.hash := by
  unfold OpenAIKeyProvider.throttle; split <;> rfl

theorem openaiThrottle_isDisabled (now : Int) (k : OpenAIKey) :
    (OpenAIKeyProvider.throttle now k).isDisabled = k.isDisabled := by
  unfold OpenAIKeyProvider.throttle; split <;> rfl

theorem openaiThrottle_modelFamilies (now : Int) (k : OpenAIKey) :
    (OpenAIKeyProvider.throttle now k).modelFamilies = k.modelFamilies := by
  unfold OpenAIKeyProvider.throttle; split <;> rfl

/-- After the OpenAI throttle, either the key was restamped to be locked
until exactly `now + KEY_REUSE_DELAY`, or the throttle was skipped
because the natural reset window extends further. -/
theorem openaiThrottle_rateLimit (now : Int) (k : OpenAIKey) :
    now + OPENAI_KEY_REUSE_DELAY ≤ (OpenAIKeyProvider.throttle now k).rateLimitedUntil ∨
      now + OPENAI_KEY_REUSE_DELAY
        < (OpenAIKeyProvider.throttle now k).rateLimitedAt
            + openaiResetTime (OpenAIKeyProvider.throttle now k) := by
  unfold OpenAIKeyProvider.throttle
  split
  · next h => right; omega
  · next h => left; simp

/-- Claim C2 (amended): every key returned by `get` is enabled and serves
the requested family.  For AWS the pool record is throttled so that
`rateLimitedUntil ≥ now + KEY_REUSE_DELAY` always holds afterwards.  For
OpenAI the throttle is skipped whenever the natural window
`rateLimitedAt + max(requestsReset, tokensReset)` extends past
`now + KEY_REUSE_DELAY`, leaving `rateLimitedUntil` unchanged (possibly
below `now + KEY_REUSE_DELAY`); when it does fire it sets
`rateLimitedUntil = now + KEY_REUSE_DELAY` exactly rather than taking a
maximum with the current value. -/
theorem C2_amended (allowAwsLogging checkKeys : Bool)
    (getFamA getFamO : String → String) (now : Int) (model : String)
    (akeys : List AwsBedrockKey) (okeys : List OpenAIKey)
    (hpa : akeys.Pairwise fun a b => a.hash ≠ b.hash)
    (hpo : okeys.Pairwise fun a b => a.hash ≠ b.hash) :
    (∀ k pool2,
      AwsBedrockKeyProvider.get allowAwsLogging getFamA now model akeys
          = some (k, pool2) →
        ¬ k.isDisabled = true ∧ getFamA model ∈ k.modelFamilies ∧
          now + AWS_KEY_REUSE_DELAY ≤ k.rateLimitedUntil ∧ k ∈ pool2) ∧
    (∀ k pool2,
      OpenAIKeyProvider.get checkKeys getFamO now model okeys = some (k, pool2) →
        ¬ k.isDisabled = true ∧ getFamO model ∈ k.modelFamilies ∧
          (now + OPENAI_KEY_REUSE_DELAY ≤ k.rateLimitedUntil ∨
            now + OPENAI_KEY_REUSE_DELAY < k.rateLimitedAt + openaiResetTime k) ∧
          k ∈ pool2) := by
  constructor
  · intro k pool2 heq
    unfold AwsBedrockKeyProvider.get at heq
    obtain ⟨selected, hmem, hflt, hk, hkmem⟩ :=
      providerGet_spec (fun k => k.hash) (fun k => k.toKey)
        (awsKeyFilter allowAwsLogging (getFamA model)
          (if strIncludes model "claude-2" then "claude-v2" else model))
        (fun a b =>
          (if a.inferenceProfileIds.any (fun p => strIncludes p model) then 1 else 0)
            - (if b.inferenceProfileIds.any (fun p => strIncludes p model) then 1
                else 0))
        (fun k => { k with lastUsed := now }) (AwsBedrockKeyProvider.throttle now)
        now akeys (fun _ => rfl) (fun _ => rfl) hpa k pool2 heq
    simp only [awsKeyFilter, Bool.and_eq_true, Bool.not_eq_eq_eq_not,
      Bool.not_true] at hflt
    obtain ⟨⟨⟨hdis, _⟩, hfam⟩, _⟩ := hflt
    subst hk
    refine ⟨by simp [AwsBedrockKeyProvider.throttle, hdis], ?_, ?_, hkmem⟩
    · simpa [AwsBedrockKeyProvider.throttle] using hfam
    · simp [AwsBedrockKeyProvider.throttle]
  · intro k pool2 heq
    unfold OpenAIKeyProvider.get at heq
    obtain ⟨selected, hmem, hflt, hk, hkmem⟩ :=
      providerGet_spec (fun k => k.hash) (fun k => k.toKey)
        (openaiKeyFilter checkKeys model (getFamO model)
          (model == "text-embedding-ada-002"))
        (fun a b => (if a.isTrial then 1 else 0) - (if b.isTrial then 1 else 0))
        (fun k => { k with lastUsed := now }) (OpenAIKeyProvider.throttle now)
        now okeys (fun _ => rfl) (fun kk => openaiThrottle_hash now kk) hpo
        k pool2 heq
    simp only [openaiKeyFilter, Bool.and_eq_true, Bool.not_eq_eq_eq_not,
      Bool.not_true] at hflt
    obtain ⟨⟨⟨hdis, hfam⟩, _⟩, _⟩ := hflt
    subst hk
    refine ⟨?_, ?_, ?_, hkmem⟩
    · rw [openaiThrottle_isDisabled]
      simpa using hdis
    · rw [openaiThrottle_modelFamilies]
      simpa using hfam
    · exact openaiThrottle_rateLimit now _

/-- Evaluation rule for `providerGet` on a one-key pool whose key passes
the filter. -/
theorem providerGet_singleton {κ : Type} (hash : κ → String) (toKey : κ → Key)
    (flt : κ → Bool) (custom : κ → κ → Int) (stamp thr : κ → κ) (now : Int) (k : κ)
    (hflt : flt k = true) (hsh : hash (stamp k) = hash k)
    (hsh2 : hash (thr (stamp k)) = hash (stamp k)) :
    providerGet hash toKey flt custom stamp thr now [k]
      = some (thr (stamp k), [thr (stamp k)]) := by
  unfold providerGet prioritizeKeys
  simp only [List.filter_cons, hflt, if_true, List.filter_nil,
    List.mergeSort_singleton, List.head?_cons, Option.some_bind]
  simp [poolUpdate, hsh, hsh2]

/-- A fresh AWS key used to witness the amended C2. -/
def kC2W : AwsBedrockKey :=
  { hash := "aws-00000001", modelFamilies := ["aws-claude"], isDisabled := false
    isRevoked := false, promptCount := 0, lastUsed := 0, lastChecked := 0
    rateLimitedAt := 0, rateLimitedUntil := 0, awsLoggingStatus := .unknown
    modelIds := ["claude-3-sonnet"], inferenceProfileIds := [] }

/-- `kC2W` after being selected at `now = 1000`: stamped and throttled. -/
def kC2WOut : AwsBedrockKey :=
  { hash := "aws-00000001", modelFamilies := ["aws-claude"], isDisabled := false
    isRevoked := false, promptCount := 0, lastUsed := 1000, lastChecked := 0
    rateLimitedAt := 1000, rateLimitedUntil := 1250, awsLoggingStatus := .unknown
    modelIds := ["claude-3-sonnet"], inferenceProfileIds := [] }

theorem C2_amended_witness :
    ¬ kC2WOut.isDisabled = true ∧ "aws-claude" ∈ kC2WOut.modelFamilies ∧
      (1000 : Int) + AWS_KEY_REUSE_DELAY ≤ kC2WOut.rateLimitedUntil ∧
      kC2WOut ∈ [kC2WOut] := by
  have hget : AwsBedrockKeyProvider.get false (fun _ => "aws-claude") 1000
      "claude-3-sonnet" [kC2W] = some (kC2WOut, [kC2WOut]) := by
    unfold AwsBedrockKeyProvider.get
    exact (providerGet_singleton _ _ _ _ _ _ 1000 kC2W (by decide) rfl rfl).trans
      (by decide)
  exact (C2_amended false false (fun _ => "aws-claude") (fun _ => "turbo") 1000
      "claude-3-sonnet" [kC2W] [] (by simp) (by simp)).1 kC2WOut [kC2WOut] hget

/-- An OpenAI key whose header-derived reset window (30 s of tokens
reset) is still running while its `rateLimitedUntil` (10 s) has already
passed: reachable by `markRateLimited` after `updateRateLimits` stored a
long tokens reset. -/
def kC2Cex : OpenAIKey :=
  { hash := "oai-00000001", modelFamilies := ["gpt4o"], isDisabled := false
    isRevoked := false, promptCount := 0, lastUsed := 0, lastChecked := 0
    rateLimitedAt := 0, rateLimitedUntil := 10000, isTrial := false
    isOverQuota := false, rateLimitRequestsReset := 10000
    rateLimitTokensReset := 30000, modelIds := ["gpt-4o"] }

/-- `kC2Cex` after `get` at `now = 15000`: only `lastUsed` changes because
the throttle is skipped. -/
def kC2CexOut : OpenAIKey :=
  { hash := "oai-00000001", modelFamilies := ["gpt4o"], isDisabled := false
    isRevoked := false, promptCount := 0, lastUsed := 15000, lastChecked := 0
    rateLimitedAt := 0, rateLimitedUntil := 10000, isTrial := false
    isOverQuota := false, rateLimitRequestsReset := 10000
    rateLimitTokensReset := 30000, modelIds := ["gpt-4o"] }

/-- Claim C2 counterexample: the OpenAI `get` succeeds on an enabled key
of the right family, yet afterwards the pool record (returned unchanged
except for `lastUsed`) has `rateLimitedUntil = 10000 < now +
KEY_REUSE_DELAY = 16000`: the throttle was skipped, so the claimed
postcondition `rateLimitedUntil ≥ now + KEY_REUSE_DELAY` fails. -/
theorem C2_counterexample :
    OpenAIKeyProvider.get true (fun _ => "gpt4o") 15000 "gpt-4o" [kC2Cex]
        = some (kC2CexOut, [kC2CexOut]) ∧
      ¬ kC2CexOut.isDisabled = true ∧ "gpt4o" ∈ kC2CexOut.modelFamilies ∧
      kC2CexOut.rateLimitedUntil < 15000 + OPENAI_KEY_REUSE_DELAY := by
  refine ⟨?_, by decide, by decide, by decide⟩
  unfold OpenAIKeyProvider.get
  exact (providerGet_singleton _ _ _ _ _ _ 15000 kC2Cex (by decide) rfl
    (openaiThrottle_hash _ _)).trans (by decide)

/-! ### Claim C10: the model-snapshot filter is gated on `config.checkKeys` -/

/-- A fresh OpenAI key with an empty `modelIds` snapshot list, as keys
look at startup before any check has run. -/
def kC10 : OpenAIKey :=
  { hash := "oai-00000002", modelFamilies := ["gpt4o"], isDisabled := false
    isRevoked := false, promptCount := 0, lastUsed := 0, lastChecked := 0
    rateLimitedAt := 0, rateLimitedUntil := 0, isTrial := false
    isOverQuota := false, rateLimitRequestsReset := 0
    rateLimitTokensReset := 0, modelIds := [] }

/-- `kC10` after `get` at `now = 2000`: stamped and throttled. -/
def kC10Out : OpenAIKey :=
  { hash := "oai-00000002", modelFamilies := ["gpt4o"], isDisabled := false
    isRevoked := false, promptCount := 0, lastUsed := 2000, lastChecked := 0
    rateLimitedAt := 2000, rateLimitedUntil := 3000, isTrial := false
    isOverQuota := false, rateLimitRequestsReset := 1000
    rateLimitTokensReset := 0, modelIds := [] }

/-- Claim C10: with `config.checkKeys` off, the OpenAI candidate filter
checks only `isDisabled`, family membership and trial exclusion (no
snapshot check), and `get` can return a key whose `modelIds` does not
contain the requested model; with key checking on, passing the filter
forces `model ∈ modelIds`. -/
theorem C10_checkKeys_snapshot (model neededFamily : String)
    (excludeTrials : Bool) (k : OpenAIKey) :
    (openaiKeyFilter false model neededFamily excludeTrials k = true ↔
      (¬ k.isDisabled = true ∧ neededFamily ∈ k.modelFamilies ∧
        (excludeTrials = true → ¬ k.isTrial = true))) ∧
    (openaiKeyFilter true model neededFamily excludeTrials k = true →
      model ∈ k.modelIds) ∧
    (OpenAIKeyProvider.get false (fun _ => "gpt4o") 2000 "gpt-4o" [kC10]
        = some (kC10Out, [kC10Out]) ∧ ¬ "gpt-4o" ∈ kC10Out.modelIds) := by
  refine ⟨?_, ?_, ?_, by decide⟩
  · simp only [openaiKeyFilter, Bool.and_eq_true, Bool.or_eq_true,
      Bool.not_eq_eq_eq_not, Bool.not_true, Bool.not_false]
    constructor
    · rintro ⟨⟨⟨hdis, hfam⟩, htrial⟩, -⟩
      refine ⟨by simp [hdis], by simpa using hfam, fun hex => ?_⟩
      rcases htrial with h | h
      · simp [hex] at h
      · simp [h]
    · rintro ⟨hdis, hfam, htrial⟩
      refine ⟨⟨⟨by simpa using hdis, by simpa using hfam⟩, ?_⟩, Or.inl trivial⟩
      by_cases hex : excludeTrials = true
      · exact Or.inr (by simpa using htrial hex)
      · exact Or.inl (by simpa using hex)
  · intro h
    simp only [openaiKeyFilter, Bool.and_eq_true, Bool.or_eq_true] at h
    rcases h.2 with hfalse | hmem
    · exact absurd hfalse (by simp)
    · simpa using hmem
  · unfold OpenAIKeyProvider.get
    exact (providerGet_singleton _ _ _ _ _ _ 2000 kC10 (by decide) rfl
      (openaiThrottle_hash _ _)).trans (by decide)

/-- An OpenAI key that passes the filter with key checking enabled. -/
def kC10W : OpenAIKey :=
  { hash := "oai-00000003", modelFamilies := ["gpt4o"], isDisabled := false
    isRevoked := false, promptCount := 0, lastUsed := 0, lastChecked := 0
    rateLimitedAt := 0, rateLimitedUntil := 0, isTrial := false
    isOverQuota := false, rateLimitRequestsReset := 0
    rateLimitTokensReset := 0, modelIds := ["gpt-4o"] }

theorem C10_checkKeys_snapshot_witness : "gpt-4o" ∈ kC10W.modelIds :=
  (C10_checkKeys_snapshot "gpt-4o" "gpt4o" false kC10W).2.1 (by decide)

/-! ### Claim C4: the reversible mutation log (`ProxyReqManager`) -/

/-- The request state observed through the manager
(`src/proxy/middleware/request/proxy-req-manager.ts`): `headers` is the
Node header dictionary (keys are stored lowercased), `url` backs the
Express `path` accessor, and `body` / `key` / `signedRequest` are opaque
payloads modelled as strings. -/
structure ProxyReq where
  headers : String → Option String
  body : String
  url : String
  key : Option String
  signedRequest : Option String

/-- `req.path`: the pathname part of `req.url`, i.e. everything before
the query string. -/
def pathOf (url : String) : String :=
  ⟨url.data.takeWhile fun c => c ≠ '?'⟩

/-- `String.prototype.toLowerCase` for header names (ASCII). -/
def strToLower (s : String) : String :=
  ⟨s.data.map Char.toLower⟩

/-- Express `req.get(name)`: lowercase the name, but alias the referrer
pair: for `referer`/`referrer` it returns
`headers.referrer || headers.referer` (an empty string is falsy). -/
def reqGet (r : ProxyReq) (name : String) : Option String :=
  if strToLower name = "referer" ∨ strToLower name = "referrer" then
    match r.headers "referrer" with
    | some v => if v = "" then r.headers "referer" else some v
    | none => r.headers "referer"
  else r.headers (strToLower name)

/-- Write one entry of the header dictionary (`none` deletes it). -/
def setHeaderMap (hs : String → Option String) (n : String) (v : Option String) :
    String → Option String :=
  fun m => if m = n then v else hs m

/-- One recorded mutation `{target, key, originalValue}`; the stored
original value is typed per target. -/
inductive ProxyReqMutation
  | header (name : String) (originalValue : Option String)
  | path (originalValue : String)
  | body (originalValue : String)
  | apiKey (originalValue : Option String)
  | signedRequest (originalValue : Option String)

/-- The manager: the wrapped request plus the ordered mutation log. -/
structure ProxyReqManager where
  req : ProxyReq
  mutations : List ProxyReqMutation

/-- The mutation methods a caller can invoke on the manager. -/
inductive ProxyOp
  | setHeader (name value : String)
  | removeHeader (name : String)
  | setBody (newBody : String)
  | setKey (newKey : String)
  | setPath (newPath : String)
  | setSignedRequest (newSignedRequest : String)

/-- One manager method (source lines 41-75): record the prior value, then
mutate the request. -/
def applyOp (m : ProxyReqManager) : ProxyOp → ProxyReqManager
  | .setHeader name value =>
    { req := { m.req with
        headers := setHeaderMap m.req.headers (strToLower name) (some value) }
      mutations := m.mutations ++ [.header name (reqGet m.req name)] }
  | .removeHeader name =>
    { req := { m.req with
        headers := setHeaderMap m.req.headers (strToLower name) none }
      mutations := m.mutations ++ [.header name (reqGet m.req name)] }
  | .setBody newBody =>
    { req := { m.req with body := newBody }
      mutations := m.mutations ++ [.body m.req.body] }
  | .setKey newKey =>
    { req := { m.req with key := some newKey }
      mutations := m.mutations ++ [.apiKey m.req.key] }
  | .setPath newPath =>
    { req := { m.req with url := newPath }
      mutations := m.mutations ++ [.path (pathOf m.req.url)] }
  | .setSignedRequest s =>
    { req := { m.req with signedRequest := some s }
      mutations := m.mutations ++ [.signedRequest m.req.signedRequest] }

/-- Apply a sequence of mutation calls. -/
def applyOps (m : ProxyReqManager) (ops : List ProxyOp) : ProxyReqManager :=
  ops.foldl applyOp m

/-- One arm of the `revert` switch: reapply the recorded original value.
Mutations to the assigned key are deliberately not reverted. -/
def undoMutation (r : ProxyReq) : ProxyReqMutation → ProxyReq
  | .header name orig => { r with headers := setHeaderMap r.headers (strToLower name) orig }
  | .path orig => { r with url := orig }
  | .body orig => { r with body := orig }
  | .apiKey _ => r
  | .signedRequest orig => { r with signedRequest := orig }

/-- `revert()` (source lines 81-111): undo the recorded mutations in
reverse order, then clear the log. -/
def ProxyReqManager.revert (m : ProxyReqManager) : ProxyReqManager :=
  { req := m.mutations.reverse.foldl undoMutation m.req, mutations := [] }

/-- Observable equality: same headers, body, path and signed request (the
assigned key and the raw `url` are not part of the observable state the
revert-law talks about). -/
def obsEq (a b : ProxyReq) : Prop :=
  a.headers = b.headers ∧ a.body = b.body ∧ pathOf a.url = pathOf b.url ∧
    a.signedRequest = b.signedRequest

theorem obsEq_refl (a : ProxyReq) : obsEq a a := ⟨rfl, rfl, rfl, rfl⟩

theorem obsEq_trans {a b c : ProxyReq} (h1 : obsEq a b) (h2 : obsEq b c) :
    obsEq a c :=
  ⟨h1.1.trans h2.1, h1.2.1.trans h2.2.1, h1.2.2.1.trans h2.2.2.1,
    h1.2.2.2.trans h2.2.2.2⟩

theorem takeWhile_idem {p : Char → Bool} (l : List Char) :
    (l.takeWhile p).takeWhile p = l.takeWhile p := by
  induction l with
  | nil => rfl
  | cons a t ih =>
    by_cases hp : p a
    · simp [List.takeWhile_cons, hp, ih]
    · simp [List.takeWhile_cons, hp]

theorem pathOf_idem (u : String) : pathOf (pathOf u) = pathOf u := by
  unfold pathOf
  apply congrArg
  exact takeWhile_idem u.data

theorem setHeaderMap_cancel (hs : String → Option String) (n : String)
    (v : Option String) : setHeaderMap (setHeaderMap hs n v) n (hs n) = hs := by
  funext m
  unfold setHeaderMap
  by_cases hm : m = n
  · simp [hm]
  · simp [hm]

/-- Undoing the same recorded mutation preserves observable equality. -/
theorem undoMutation_congr {s r : ProxyReq} (e : ProxyReqMutation)
    (h : obsEq s r) : obsEq (undoMutation s e) (undoMutation r e) := by
  obtain ⟨hh, hb, hp, hs⟩ := h
  cases e with
  | header name orig => exact ⟨by simp [undoMutation, hh], hb, hp, hs⟩
  | path orig => exact ⟨hh, hb, rfl, hs⟩
  | body orig => exact ⟨hh, rfl, hp, hs⟩
  | apiKey orig => exact ⟨hh, hb, hp, hs⟩
  | signedRequest orig => exact ⟨hh, hb, hp, rfl⟩

theorem undoMutation_key (r : ProxyReq) (e : ProxyReqMutation) :
    (undoMutation r e).key = r.key := by
  cases e <;> rfl

theorem foldl_undo_key (r : ProxyReq) (ms : List ProxyReqMutation) :
    (ms.foldl undoMutation r).key = r.key := by
  induction ms generalizing r with
  | nil => rfl
  | cons e t ih => rw [List.foldl_cons, ih, undoMutation_key]

/-- The mutation entry a manager method records, as a function of the
request state it sees. -/
def entryOf (r : ProxyReq) : ProxyOp → ProxyReqMutation
  | .setHeader name _ => .header name (reqGet r name)
  | .removeHeader name => .header name (reqGet r name)
  | .setBody _ => .body r.body
  | .setKey _ => .apiKey r.key
  | .setPath _ => .path (pathOf r.url)
  | .setSignedRequest _ => .signedRequest r.signedRequest

/-- The request part of one manager method. -/
def applyOpReq (r : ProxyReq) (op : ProxyOp) : ProxyReq :=
  (applyOp ⟨r, []⟩ op).req

/-- The mutation entries a call sequence records, in push order. -/
def newEntries (r : ProxyReq) : List ProxyOp → List ProxyReqMutation
  | [] => []
  | op :: t => entryOf r op :: newEntries (applyOpReq r op) t

/-- The request state after a call sequence. -/
def applyReqs (r : ProxyReq) : List ProxyOp → ProxyReq
  | [] => r
  | op :: t => applyReqs (applyOpReq r op) t

theorem applyOps_eq (ops : List ProxyOp) :
    ∀ (r : ProxyReq) (ms : List ProxyReqMutation),
      applyOps ⟨r, ms⟩ ops = ⟨applyReqs r ops, ms ++ newEntries r ops⟩ := by
  induction ops with
  | nil => intro r ms; simp [applyOps, applyReqs, newEntries]
  | cons op t ih =>
    intro r ms
    have hstep : applyOp ⟨r, ms⟩ op = ⟨applyOpReq r op, ms ++ [entryOf r op]⟩ := by
      cases op <;> rfl
    calc applyOps ⟨r, ms⟩ (op :: t)
        = applyOps (applyOp ⟨r, ms⟩ op) t := rfl
      _ = applyOps ⟨applyOpReq r op, ms ++ [entryOf r op]⟩ t := by rw [hstep]
      _ = ⟨applyReqs (applyOpReq r op) t,
            (ms ++ [entryOf r op]) ++ newEntries (applyOpReq r op) t⟩ := ih _ _
      _ = ⟨applyReqs r (op :: t), ms ++ newEntries r (op :: t)⟩ := by
            simp [applyReqs, newEntries]

/-- A mutation call is alias-free when it is not a header mutation on the
referrer pair: for such names Express's `req.get` is a plain lookup under
the lowercased name, so the recorded original value is exactly the stored
entry the mutation overwrites. -/
def headerOpOk : ProxyOp → Prop
  | .setHeader name _ =>
    strToLower name ≠ "referer" ∧ strToLower name ≠ "referrer"
  | .removeHeader name =>
    strToLower name ≠ "referer" ∧ strToLower name ≠ "referrer"
  | _ => True

instance (op : ProxyOp) : Decidable (headerOpOk op) := by
  unfold headerOpOk
  cases op <;> infer_instance

theorem reqGet_plain (r : ProxyReq) (name : String)
    (h1 : strToLower name ≠ "referer") (h2 : strToLower name ≠ "referrer") :
    reqGet r name = r.headers (strToLower name) := by
  unfold reqGet
  rw [if_neg]
  rintro (h | h)
  · exact h1 h
  · exact h2 h

/-- A single alias-free manager method followed by its recorded inverse
restores the observable request state. -/
theorem undo_entry (r : ProxyReq) (op : ProxyOp) (hok : headerOpOk op) :
    obsEq (undoMutation (applyOpReq r op) (entryOf r op)) r := by
  cases op with
  | setHeader name value =>
    obtain ⟨h1, h2⟩ := hok
    refine ⟨?_, rfl, rfl, rfl⟩
    simp [applyOpReq, applyOp, entryOf, undoMutation, reqGet_plain r name h1 h2,
      setHeaderMap_cancel]
  | removeHeader name =>
    obtain ⟨h1, h2⟩ := hok
    refine ⟨?_, rfl, rfl, rfl⟩
    simp [applyOpReq, applyOp, entryOf, undoMutation, reqGet_plain r name h1 h2,
      setHeaderMap_cancel]
  | setBody newBody => exact ⟨rfl, rfl, rfl, rfl⟩
  | setKey newKey => exact ⟨rfl, rfl, rfl, rfl⟩
  | setPath newPath => exact ⟨rfl, rfl, pathOf_idem r.url, rfl⟩
  | setSignedRequest s => exact ⟨rfl, rfl, rfl, rfl⟩

/-- Undoing the recorded entries in reverse order restores the observable
state an alias-free sequence started from. -/
theorem revert_obsEq (ops : List ProxyOp) :
    ∀ r : ProxyReq, (∀ op ∈ ops, headerOpOk op) →
      obsEq ((newEntries r ops).reverse.foldl undoMutation (applyReqs r ops)) r := by
  induction ops with
  | nil => intro r _; exact obsEq_refl r
  | cons op t ih =>
    intro r hok
    simp only [newEntries, applyReqs, List.reverse_cons, List.foldl_append,
      List.foldl_cons, List.foldl_nil]
    exact obsEq_trans
      (undoMutation_congr _
        (ih (applyOpReq r op) fun o ho => hok o (List.mem_cons_of_mem _ ho)))
      (undo_entry r op (hok op (List.mem_cons_self _ _)))

/-- Claim C4 (amended): for any sequence of manager mutations applied to
a request with an empty mutation log, `revert()` leaves the mutation log
empty, does not revert the assigned key, and restores the observable
request state (headers, body, path, signedRequest) to exactly its state
before the first mutation, provided no header mutation targets the
referer/referrer pair.  For those two names Express's `req.get` aliases
`headers.referrer || headers.referer`, so the recorded original value can
differ from the stored entry and `revert()` can materialize a `referer`
header that did not exist (see the counterexample). -/
theorem C4_revert_law (r0 : ProxyReq) (ops : List ProxyOp)
    (hops : ∀ op ∈ ops, headerOpOk op) :
    obsEq (applyOps ⟨r0, []⟩ ops).revert.req r0 ∧
      (applyOps ⟨r0, []⟩ ops).revert.req.key = (applyOps ⟨r0, []⟩ ops).req.key ∧
      (applyOps ⟨r0, []⟩ ops).revert.mutations = [] := by
  rw [applyOps_eq ops r0 []]
  simp only [ProxyReqManager.revert, List.nil_append]
  exact ⟨revert_obsEq ops r0 hops, foldl_undo_key _ _, trivial⟩

/-- A request carrying only a `referrer` header (no `referer`). -/
def rC4 : ProxyReq :=
  { headers := fun n => if n = "referrer" then some "https://example.com" else none
    body := "b", url := "/v1/complete", key := none, signedRequest := none }

/-- Claim C4 counterexample: on a request with only a `referrer` header,
`removeHeader("referer")` records the aliased `req.get` value
(`headers.referrer`), and `revert()` then writes it under `referer`: the
reverted request carries a `referer` header that did not exist before the
mutation, so headers are not restored to exactly their prior values. -/
theorem C4_counterexample :
    (applyOps ⟨rC4, []⟩ [ProxyOp.removeHeader "referer"]).revert.req.headers
        "referer" = some "https://example.com" ∧
      rC4.headers "referer" = none := by
  constructor
  · rfl
  · rfl

/-- A representative alias-free mutation sequence for the witness. -/
def opsC4W : List ProxyOp :=
  [ProxyOp.removeHeader "Origin", ProxyOp.setHeader "Authorization" "Bearer k",
    ProxyOp.setKey "sk-live", ProxyOp.setBody "finalized",
    ProxyOp.setPath "/v1/messages", ProxyOp.setSignedRequest "signed"]

theorem C4_revert_law_witness :
    obsEq (applyOps ⟨rC4, []⟩ opsC4W).revert.req rC4 ∧
      (applyOps ⟨rC4, []⟩ opsC4W).revert.req.key
        = (applyOps ⟨rC4, []⟩ opsC4W).req.key ∧
      (applyOps ⟨rC4, []⟩ opsC4W).revert.mutations = [] :=
  C4_revert_law rC4 opsC4W (by decide)

/-! ### Claims C6 and C8: the request queue -/

/-- An enqueued request, restricted to the fields the queue logic reads.
`modelFamily` caches `getModelFamilyForRequest`, `identity` caches
`getIdentifier` (user token, risu token, or IP), and `id` models JS
object identity (requests are distinct objects; `queue.indexOf` compares
by identity). -/
structure QReq where
  id : Nat
  identity : String
  modelFamily : String
  startTime : Int
  promptTokens : Option Int
  outputTokens : Option Int
deriving Repr, DecidableEq

/-- The cost-weighted deadline used by `dequeue` (queue source lines
450-459): `startTime + config.tokensPunishmentFactor *
((promptTokens ?? 0) + (outputTokens ?? 0))`. -/
def reqCost (factor : ℚ) (r : QReq) : ℚ :=
  (r.startTime : ℚ)
    + factor * (((r.promptTokens.getD 0 : Int) : ℚ)
        + ((r.outputTokens.getD 0 : Int) : ℚ))

/-- `getQueueForPartition` (lines 439-441). -/
def getQueueForPartition (queue : List QReq) (partition : String) : List QReq :=
  queue.filter fun r => r.modelFamily == partition

/-- `Array.prototype.reduce` without a seed over the cost comparison:
fold from the second element, keeping `prev` on a strict win. -/
def reduceMin (factor : ℚ) (x : QReq) (xs : List QReq) : QReq :=
  xs.foldl
    (fun prev curr => if reqCost factor prev < reqCost factor curr then prev
      else curr) x

/-- `queue.splice(queue.indexOf(req), 1)`: drop the first element that is
the given request (matched by object identity, i.e. `id`). -/
def removeReq (queue : List QReq) (r : QReq) : List QReq :=
  match queue with
  | [] => []
  | x :: t => if x.id == r.id then t else x :: removeReq t r

/-- `dequeue(partition)` (lines 443-476): pick the cost-minimal request of
the partition and remove it from the global queue. -/
def dequeue (factor : ℚ) (queue : List QReq) (partition : String) :
    Option (QReq × List QReq) :=
  match getQueueForPartition queue partition with
  | [] => none
  | x :: xs => some (reduceMin factor x xs, removeReq queue (reduceMin factor x xs))

/-- One family step of `processQueue` (lines 484-508): a family is only
drained when the key pool's lockout period for it is 0. -/
def processQueueStep (factor : ℚ) (keys : List Key) (queue : List QReq)
    (family : String) (now : Int) : Option (QReq × List QReq) :=
  if createGenericGetLockoutPeriod keys family now = 0 then
    dequeue factor queue family
  else none

theorem reduceMin_spec (factor : ℚ) (xs : List QReq) :
    ∀ x, reduceMin factor x xs ∈ x :: xs ∧
      ∀ y ∈ x :: xs, reqCost factor (reduceMin factor x xs) ≤ reqCost factor y := by
  induction xs with
  | nil =>
    intro x
    refine ⟨by simp [reduceMin], ?_⟩
    intro y hy
    simp only [List.mem_singleton] at hy
    simp [reduceMin, hy]
  | cons z zs ih =>
    intro x
    have hred : reduceMin factor x (z :: zs)
        = reduceMin factor (if reqCost factor x < reqCost factor z then x else z) zs :=
      rfl
    obtain ⟨hmem, hle⟩ := ih (if reqCost factor x < reqCost factor z then x else z)
    rw [hred]
    constructor
    · rcases List.mem_cons.mp hmem with heq | hmemz
      · rw [heq]
        by_cases hc : reqCost factor x < reqCost factor z
        · simp [hc]
        · simp [hc]
      · exact List.mem_cons_of_mem _ (List.mem_cons_of_mem _ hmemz)
    · intro y hy
      have hhead := hle _ (List.mem_cons_self _ _)
      rcases List.mem_cons.mp hy with rfl | hy2
      · by_cases hc : reqCost factor y < reqCost factor z
        · simpa [hc] using hhead
        · exact le_trans (by simpa [hc] using hhead) (le_of_not_lt hc)
      · rcases List.mem_cons.mp hy2 with rfl | hy3
        · by_cases hc : reqCost factor x < reqCost factor y
          · exact le_trans (by simpa [hc] using hhead) (le_of_lt hc)
          · simpa [hc] using hhead
        · exact hle _ (List.mem_cons_of_mem _ hy3)

theorem removeReq_perm (queue : List QReq) (r : QReq)
    (hids : queue.Pairwise fun a b => a.id ≠ b.id) (hr : r ∈ queue) :
    queue.Perm (r :: removeReq queue r) := by
  induction queue with
  | nil => exact absurd hr (List.not_mem_nil r)
  | cons x t ih =>
    rcases List.pairwise_cons.mp hids with ⟨hhead, htail⟩
    by_cases hid : x.id = r.id
    · have hxr : x = r := by
        rcases List.mem_cons.mp hr with rfl | hrt
        · rfl
        · exact absurd hid (hhead r hrt)
      subst hxr
      simp [removeReq]
    · have hrt : r ∈ t := by
        rcases List.mem_cons.mp hr with rfl | hrt
        · exact absurd rfl hid
        · exact hrt
      have hperm := ih htail hrt
      have hrm : removeReq (x :: t) r = x :: removeReq t r := by
        simp [removeReq, hid]
      rw [hrm]
      exact (hperm.cons x).trans (List.Perm.swap r x (removeReq t r))

theorem removeReq_filter_ne (queue : List QReq) (r : QReq)
    (hids : queue.Pairwise fun a b => a.id ≠ b.id) (hr : r ∈ queue)
    (fam2 : String) (hfam : r.modelFamily ≠ fam2) :
    getQueueForPartition (removeReq queue r) fam2
      = getQueueForPartition queue fam2 := by
  induction queue with
  | nil => rfl
  | cons x t ih =>
    rcases List.pairwise_cons.mp hids with ⟨hhead, htail⟩
    by_cases hid : x.id = r.id
    · have hxr : x = r := by
        rcases List.mem_cons.mp hr with rfl | hrt
        · rfl
        · exact absurd hid (hhead r hrt)
      subst hxr
      simp [removeReq, getQueueForPartition, List.filter_cons, hfam]
    · have hrt : r ∈ t := by
        rcases List.mem_cons.mp hr with rfl | hrt
        · exact absurd rfl hid
        · exact hrt
      have hrm : removeReq (x :: t) r = x :: removeReq t r := by
        simp [removeReq, hid]
      rw [hrm]
      show List.filter _ (x :: removeReq t r) = List.filter _ (x :: t)
      rw [List.filter_cons, List.filter_cons]
      have hrec := ih htail hrt
      unfold getQueueForPartition at hrec
      rw [hrec]

/-- Claim C6: when the family's lockout period is 0 and its partition is
non-empty, the `processQueue` step removes and returns a request of that
partition minimising `startTime + TOKENS_PUNISHMENT_FACTOR *
(promptTokens + outputTokens)`; the rest of the queue is that queue minus
the returned request, and every other partition is untouched. -/
theorem C6_dequeue_min (factor : ℚ) (keys : List Key) (queue : List QReq)
    (family : String) (now : Int)
    (hids : queue.Pairwise fun a b => a.id ≠ b.id)
    (hlock : createGenericGetLockoutPeriod keys family now = 0)
    (hne : getQueueForPartition queue family ≠ []) :
    ∃ r q2, processQueueStep factor keys queue family now = some (r, q2) ∧
      r.modelFamily = family ∧ r ∈ queue ∧
      (∀ x ∈ getQueueForPartition queue family,
        reqCost factor r ≤ reqCost factor x) ∧
      queue.Perm (r :: q2) ∧
      ∀ fam2, fam2 ≠ family →
        getQueueForPartition q2 fam2 = getQueueForPartition queue fam2 := by
  obtain ⟨x, xs, hcons⟩ := List.exists_cons_of_ne_nil hne
  obtain ⟨hmem, hle⟩ := reduceMin_spec factor xs x
  rw [← hcons] at hmem
  have hmemq : reduceMin factor x xs ∈ queue :=
    (List.mem_filter.mp hmem).1
  have hfam : (reduceMin factor x xs).modelFamily = family := by
    have := (List.mem_filter.mp hmem).2
    simpa using this
  refine ⟨reduceMin factor x xs, removeReq queue (reduceMin factor x xs),
    ?_, hfam, hmemq, ?_, removeReq_perm queue _ hids hmemq, ?_⟩
  · simp only [processQueueStep, if_pos hlock, dequeue, hcons]
  · intro y hy
    rw [hcons] at hy
    exact hle y hy
  · intro fam2 hfam2
    exact removeReq_filter_ne queue _ hids hmemq fam2 (by rw [hfam]; exact hfam2.symm)

/-- Requests used to instantiate the queue claims. -/
def rC6a : QReq :=
  { id := 1, identity := "user-a", modelFamily := "claude", startTime := 10
    promptTokens := some 5, outputTokens := none }

/-- A second request in a different partition. -/
def rC6b : QReq :=
  { id := 2, identity := "user-b", modelFamily := "gpt4o", startTime := 3
    promptTokens := none, outputTokens := some 7 }

theorem C6_dequeue_min_witness :
    ∃ r q2, processQueueStep 0 [] [rC6a, rC6b] "claude" 100 = some (r, q2) ∧
      r.modelFamily = "claude" ∧ r ∈ [rC6a, rC6b] ∧
      (∀ x ∈ getQueueForPartition [rC6a, rC6b] "claude",
        reqCost 0 r ≤ reqCost 0 x) ∧
      ([rC6a, rC6b] : List QReq).Perm (r :: q2) ∧
      ∀ fam2, fam2 ≠ "claude" →
        getQueueForPartition q2 fam2 = getQueueForPartition [rC6a, rC6b] fam2 :=
  C6_dequeue_min 0 [] [rC6a, rC6b] "claude" 100 (by decide) (by decide) (by decide)

/-- `USER_CONCURRENCY_LIMIT` defaults to 1; it stays a parameter below. -/
def USER_CONCURRENCY_LIMIT : Nat := 1

/-- `queue.filter(sharesIdentifierWith(req)).length`. -/
def identityCount (queue : List QReq) (ident : String) : Nat :=
  (queue.filter fun r => r.identity == ident).length

/-- The queue-relevant failure of `enqueue`. -/
inductive EnqueueError
  | tooManyRequests
deriving Repr, DecidableEq

/-- The check-and-push of `enqueue` (queue source lines 370-428) run to
completion without interleaving: reject with `TooManyRequestsError` when
the identity already holds `limit` slots in the queue, else push at the
back.  The source suspends at `await initStreaming(req)` between the
check and the push; that suspension is modelled separately by
`AsyncQueueStep`. -/
def enqueue (limit : Nat) (queue : List QReq) (r : QReq) :
    Except EnqueueError (List QReq) :=
  if limit ≤ identityCount queue r.identity then .error .tooManyRequests
  else .ok (queue ++ [r])

/-- Serialized queue transitions: an `enqueue` whose check and push are
adjacent (no other enqueue interleaves at the `await`), or the removal of
any element (dequeue, the close handler on client abort, the 5-minute
cleaner). -/
inductive QueueStep (limit : Nat) : List QReq → List QReq → Prop
  | enqueue (q : List QReq) (r : QReq) (q2 : List QReq)
      (h : enqueue limit q r = .ok q2) : QueueStep limit q q2
  | remove (q1 : List QReq) (r : QReq) (q2 : List QReq) :
      QueueStep limit (q1 ++ r :: q2) (q1 ++ q2)

/-- Queue states reachable from the empty queue by serialized enqueues. -/
abbrev QueueReachable (limit : Nat) (q : List QReq) : Prop :=
  Relation.ReflTransGen (QueueStep limit) [] q

/-- The two phases of `enqueue` around the `await initStreaming(req)`
suspension, on states `(queue, pending)` where `pending` holds requests
that have passed the identity-count check (lines 379-385) but have not
yet reached `queue.push` (line 406).  `beginEnqueue` performs the check
against the queue alone (pending requests are invisible to it) and
suspends; `finishEnqueue` resumes and pushes; `remove` drops a queued
element as before. -/
inductive AsyncQueueStep (limit : Nat) :
    List QReq × List QReq → List QReq × List QReq → Prop
  | beginEnqueue (q pending : List QReq) (r : QReq)
      (h : identityCount q r.identity < limit) :
      AsyncQueueStep limit (q, pending) (q, pending ++ [r])
  | finishEnqueue (q p1 : List QReq) (r : QReq) (p2 : List QReq) :
      AsyncQueueStep limit (q, p1 ++ r :: p2) (q ++ [r], p1 ++ p2)
  | remove (q1 : List QReq) (r : QReq) (q2 pending : List QReq) :
      AsyncQueueStep limit (q1 ++ r :: q2, pending) (q1 ++ q2, pending)

/-- States reachable from the empty queue with interleaved enqueues. -/
abbrev AsyncQueueReachable (limit : Nat) (s : List QReq × List QReq) : Prop :=
  Relation.ReflTransGen (AsyncQueueStep limit) ([], []) s

/-- Two fresh streaming requests sharing one identity. -/
def rC8c : QReq :=
  { id := 5, identity := "user-d", modelFamily := "claude", startTime := 0
    promptTokens := none, outputTokens := none }

/-- Second request with the identity of `rC8c`. -/
def rC8d : QReq :=
  { id := 6, identity := "user-d", modelFamily := "claude", startTime := 1
    promptTokens := none, outputTokens := none }

/-- Claim C8 counterexample: with `USER_CONCURRENCY_LIMIT = 1`, two fresh
same-identity streaming enqueues both pass the identity-count check while
the queue is still empty (each then suspends at `await initStreaming`),
and both subsequently push, so a queue holding two entries of one
identity is reachable: the claimed invariant fails on the interleaved
program. -/
theorem C8_counterexample :
    AsyncQueueReachable 1 ([rC8c, rC8d], []) ∧
      ¬ identityCount [rC8c, rC8d] "user-d" ≤ 1 := by
  constructor
  · have s1 : AsyncQueueStep 1 ([], []) ([], [rC8c]) :=
      .beginEnqueue [] [] rC8c (by decide)
    have s2 : AsyncQueueStep 1 ([], [rC8c]) ([], [rC8c, rC8d]) :=
      .beginEnqueue [] [rC8c] rC8d (by decide)
    have s3 : AsyncQueueStep 1 ([], [rC8c, rC8d]) ([rC8c], [rC8d]) :=
      .finishEnqueue [] [] rC8c [rC8d]
    have s4 : AsyncQueueStep 1 ([rC8c], [rC8d]) ([rC8c, rC8d], []) :=
      .finishEnqueue [rC8c] [] rC8d []
    exact .head s1 (.head s2 (.head s3 (.head s4 .refl)))
  · decide

theorem identityCount_append (a b : List QReq) (ident : String) :
    identityCount (a ++ b) ident = identityCount a ident + identityCount b ident := by
  simp [identityCount, List.filter_append]

/-- Claim C8 (amended): `enqueue` rejects with the TooManyRequests kind
whenever the identity already has `USER_CONCURRENCY_LIMIT` (or more)
requests in the queue at the time of its check, and every queue state
reachable by serialized enqueues (check and push adjacent) and removals
gives each identity at most `USER_CONCURRENCY_LIMIT` entries.  The
invariant does not extend to interleaved enqueues: because `enqueue`
suspends between the check and the push, concurrent same-identity
streaming enqueues can exceed the limit (see the counterexample). -/
theorem C8_concurrency_limit (limit : Nat) (queue : List QReq) (r : QReq)
    (ident : String) :
    (limit ≤ identityCount queue r.identity →
      enqueue limit queue r = .error .tooManyRequests) ∧
    (QueueReachable limit queue → identityCount queue ident ≤ limit) := by
  constructor
  · intro h
    simp [enqueue, h]
  · intro hreach
    induction hreach with
    | refl => simp [identityCount]
    | @tail b c hsteps hstep ih =>
      cases hstep with
      | enqueue _ r2 _ h =>
        unfold enqueue at h
        split at h
        · exact absurd h (by simp)
        · next hlt =>
          have hq2 : c = b ++ [r2] := by
            have h2 := h
            simp only [Except.ok.injEq] at h2
            exact h2.symm
          subst hq2
          rw [identityCount_append]
          by_cases hid : r2.identity = ident
          · have hone : identityCount [r2] ident = 1 := by
              simp [identityCount, hid]
            rw [hone]
            rw [hid] at hlt
            omega
          · have hzero : identityCount [r2] ident = 0 := by
              simp [identityCount, hid]
            omega
      | remove q1 r2 q2 =>
        have h1 := ih
        rw [identityCount_append] at h1 ⊢
        have hsplit : identityCount (r2 :: q2) ident = identityCount q2 ident ∨
            identityCount (r2 :: q2) ident = identityCount q2 ident + 1 := by
          by_cases hid : r2.identity = ident
          · right; simp [identityCount, List.filter_cons, hid]
          · left; simp [identityCount, List.filter_cons, hid]
        omega

/-- A queued request and a second request with the same identity. -/
def rC8a : QReq :=
  { id := 3, identity := "user-c", modelFamily := "claude", startTime := 0
    promptTokens := none, outputTokens := none }

/-- Same identity as `rC8a`, different request object. -/
def rC8b : QReq :=
  { id := 4, identity := "user-c", modelFamily := "claude", startTime := 1
    promptTokens := none, outputTokens := none }

theorem C8_concurrency_limit_witness :
    enqueue 1 [rC8a] rC8b = .error .tooManyRequests ∧
      identityCount [] "user-c" ≤ 1 :=
  ⟨(C8_concurrency_limit 1 [rC8a] rC8b "user-c").1 (by decide),
    (C8_concurrency_limit 1 [] rC8b "user-c").2 Relation.ReflTransGen.refl⟩

/-! ### Claim C9: the wait-time estimator -/

/-- A completed wait sample pushed by `trackWaitTime`; `endTime` models
the source field `end` (a Lean keyword). -/
structure WaitSample where
  partition : String
  start : Int
  endTime : Int
deriving Repr, DecidableEq

/-- `ALPHA_HISTORICAL = 0.2`. -/
def ALPHA_HISTORICAL : ℚ := 1 / 5

/-- `ALPHA_CURRENT = 0.3`. -/
def ALPHA_CURRENT : ℚ := 3 / 10

/-- The two EMAs the estimator keeps per model family. -/
structure EmaState where
  historicalEma : ℚ
  currentEma : ℚ
deriving Repr, DecidableEq

/-- The `recentWaits` list of `calculateWaitTime` (queue source lines
579-585): waits of samples in this partition completed within the last
five minutes. -/
def recentWaits (waitTimes : List WaitSample) (partition : String) (now : Int) :
    List Int :=
  (waitTimes.filter fun w =>
      w.partition == partition && decide (now - w.endTime < 300 * 1000)).map
    fun w => w.endTime - w.start

/-- `recentAverage`: the mean of `recentWaits`, 0 when there are none. -/
def recentAverage (waitTimes : List WaitSample) (partition : String) (now : Int) :
    ℚ :=
  let ws := recentWaits waitTimes partition now
  if ws.length = 0 then 0 else ((ws.sum : Int) : ℚ) / (ws.length : ℚ)

/-- `longestCurrentWait`: `Math.max(...currentWaits, 0)` over the queued
requests of the partition. -/
def longestCurrentWait (queue : List QReq) (partition : String) (now : Int) :
    Int :=
  ((queue.filter fun r => r.modelFamily == partition).map
    fun r => now - r.startTime).foldr max 0

/-- `calculateWaitTime` (queue source lines 577-608): one estimator tick
for one partition.  The updated EMA pair is stored, but the returned
estimate is `(historicalEma + currentEma) / 2` over the local consts read
*before* the `Map.set` updates, i.e. the average of the pre-tick EMAs. -/
def calculateWaitTime (waitTimes : List WaitSample) (queue : List QReq)
    (partition : String) (now : Int) (st : EmaState) : EmaState × ℚ :=
  let h := ALPHA_HISTORICAL * recentAverage waitTimes partition now
    + (1 - ALPHA_HISTORICAL) * st.historicalEma
  let c := ALPHA_CURRENT * ((longestCurrentWait queue partition now : Int) : ℚ)
    + (1 - ALPHA_CURRENT) * st.currentEma
  (⟨h, c⟩, (st.historicalEma + st.currentEma) / 2)

/-- A wait sample outside the five-minute window stays outside at every
later tick, so once `recentWaits` is empty it remains empty. -/
theorem recentWaits_mono_nil (waitTimes : List WaitSample) (partition : String)
    (now now2 : Int) (hle : now ≤ now2)
    (h : recentWaits waitTimes partition now = []) :
    recentWaits waitTimes partition now2 = [] := by
  unfold recentWaits at h ⊢
  rw [List.map_eq_nil_iff] at h ⊢
  rw [List.filter_eq_nil_iff] at h ⊢
  intro w hw
  have hw2 := h w hw
  simp only [Bool.and_eq_true, beq_iff_eq, decide_eq_true_eq, not_and] at hw2 ⊢
  intro hpart
  have hB := hw2 hpart
  omega

/-- Claim C9 (amended): each tick returns the average of the EMAs as they
stood *before* that tick's update (the code returns the local consts read
before the `Map.set` calls, not the updated values the claim describes).
Once no wait samples of the family fall inside the five-minute window and
the partition is empty, the tick scales `historicalEma` by 0.8 and
`currentEma` by 0.7, so with nonnegative EMAs the next tick's estimate is
no larger, and the empty-window regime persists at any later tick.
(While recorded samples are still inside the window the estimate can
grow, which refutes the unconditional claim.) -/
theorem C9_amended (waitTimes : List WaitSample) (queue : List QReq)
    (partition : String) (now now2 : Int) (st : EmaState)
    (hnos : recentWaits waitTimes partition now = [])
    (hempty : getQueueForPartition queue partition = [])
    (hh : 0 ≤ st.historicalEma) (hc : 0 ≤ st.currentEma)
    (hle : now ≤ now2) :
    (calculateWaitTime waitTimes queue partition now st).2
        = (st.historicalEma + st.currentEma) / 2 ∧
      (calculateWaitTime waitTimes queue partition now st).1.historicalEma
        = (1 - ALPHA_HISTORICAL) * st.historicalEma ∧
      (calculateWaitTime waitTimes queue partition now st).1.currentEma
        = (1 - ALPHA_CURRENT) * st.currentEma ∧
      0 ≤ (calculateWaitTime waitTimes queue partition now st).1.historicalEma ∧
      0 ≤ (calculateWaitTime waitTimes queue partition now st).1.currentEma ∧
      (calculateWaitTime waitTimes queue partition now2
          (calculateWaitTime waitTimes queue partition now st).1).2
        ≤ (calculateWaitTime waitTimes queue partition now st).2 ∧
      recentWaits waitTimes partition now2 = [] := by
  have havg : recentAverage waitTimes partition now = 0 := by
    unfold recentAverage
    rw [hnos]
    rfl
  have hlong : longestCurrentWait queue partition now = 0 := by
    unfold longestCurrentWait
    unfold getQueueForPartition at hempty
    rw [hempty]
    rfl
  have hmono := recentWaits_mono_nil waitTimes partition now now2 hle hnos
  unfold calculateWaitTime
  rw [havg, hlong]
  unfold ALPHA_HISTORICAL ALPHA_CURRENT at *
  refine ⟨by norm_num, by norm_num, by norm_num, by positivity, by positivity,
    ?_, hmono⟩
  simp only [Int.cast_zero]
  nlinarith [hh, hc]

/-- Samples and state used to instantiate the amended C9. -/
def wC9old : WaitSample := { partition := "claude", start := 0, endTime := 1000 }

theorem C9_amended_witness :
    (calculateWaitTime [wC9old] [] "claude" 400000 ⟨8, 10⟩).2
        = ((8 : ℚ) + 10) / 2 ∧
      (calculateWaitTime [wC9old] [] "claude" 400000 ⟨8, 10⟩).1.historicalEma
        = (1 - ALPHA_HISTORICAL) * (8 : ℚ) ∧
      (calculateWaitTime [wC9old] [] "claude" 400000 ⟨8, 10⟩).1.currentEma
        = (1 - ALPHA_CURRENT) * (10 : ℚ) ∧
      0 ≤ (calculateWaitTime [wC9old] [] "claude" 400000 ⟨8, 10⟩).1.historicalEma ∧
      0 ≤ (calculateWaitTime [wC9old] [] "claude" 400000 ⟨8, 10⟩).1.currentEma ∧
      (calculateWaitTime [wC9old] [] "claude" 400003
          (calculateWaitTime [wC9old] [] "claude" 400000 ⟨8, 10⟩).1).2
        ≤ (calculateWaitTime [wC9old] [] "claude" 400000 ⟨8, 10⟩).2 ∧
      recentWaits [wC9old] "claude" 400003 = [] :=
  C9_amended [wC9old] [] "claude" 400000 400003 ⟨8, 10⟩ (by decide) (by decide)
    (by norm_num) (by norm_num) (by norm_num)

/-- Claim C9 counterexample: one wait sample of 1000 ms recorded just
before the partition drained, EMAs initialised to 0 by `start()`.  With
no new arrivals and no new samples, the first tick returns estimate 0
(the pre-update EMAs) while storing `historicalEma = 200`, and the second
tick returns 100: the sequence increases. -/
theorem C9_counterexample :
    (calculateWaitTime [⟨"claude", 0, 1000⟩] [] "claude" 3000 ⟨0, 0⟩).2 = 0 ∧
      (calculateWaitTime [⟨"claude", 0, 1000⟩] [] "claude" 6000
          (calculateWaitTime [⟨"claude", 0, 1000⟩] [] "claude" 3000 ⟨0, 0⟩).1).2
        = 100 ∧
      ¬ ((100 : ℚ) ≤ 0) := by
  have hrw3 : recentWaits [⟨"claude", 0, 1000⟩] "claude" 3000 = [1000] := by decide
  have hrw6 : recentWaits [⟨"claude", 0, 1000⟩] "claude" 6000 = [1000] := by decide
  have havg3 : recentAverage [⟨"claude", 0, 1000⟩] "claude" 3000 = 1000 := by
    unfold recentAverage
    rw [hrw3]
    norm_num
  have havg6 : recentAverage [⟨"claude", 0, 1000⟩] "claude" 6000 = 1000 := by
    unfold recentAverage
    rw [hrw6]
    norm_num
  have hlong3 : longestCurrentWait [] "claude" 3000 = 0 := rfl
  have hlong6 : longestCurrentWait [] "claude" 6000 = 0 := rfl
  have h1 : calculateWaitTime [⟨"claude", 0, 1000⟩] [] "claude" 3000 ⟨0, 0⟩
      = (⟨200, 0⟩, 0) := by
    unfold calculateWaitTime
    rw [havg3, hlong3]
    unfold ALPHA_HISTORICAL ALPHA_CURRENT
    norm_num
  rw [h1]
  have h2 : calculateWaitTime [⟨"claude", 0, 1000⟩] [] "claude" 6000 ⟨200, 0⟩
      = (⟨360, 0⟩, 100) := by
    unfold calculateWaitTime
    rw [havg6, hlong6]
    unfold ALPHA_HISTORICAL ALPHA_CURRENT
    norm_num
  rw [h2]
  norm_num

/-! ### Claim C1: the API-format transform preprocessor -/

/-- The API formats (`APIFormat` in `src/shared/key-management/index.ts`). -/
inductive APIFormat
  | openai
  | openaiText
  | openaiImage
  | anthropicChat
  | anthropicText
  | googleAI
  | mistralAI
  | mistralText
deriving Repr, DecidableEq

/-- Request payloads as a closed sum over the schema shapes the claim
needs; each constructor is a body in one API schema (messages are
(role, content) pairs; the Anthropic chat schema additionally requires
`max_tokens`). -/
inductive RequestBody
  | openaiChat (model : String) (messages : List (String × String))
  | anthropicChat (model : String) (maxTokens : Int)
      (messages : List (String × String))
  | anthropicText (model : String) (prompt : String)
deriving Repr, DecidableEq

/-- Schema conformance as the spec reads it: a body conforms to a format
when it has that format's shape.  Stated from the spec's words, to be
compared with what the code produces. -/
def conformsToFormat : RequestBody → APIFormat → Bool
  | .openaiChat _ _, .openai => true
  | .anthropicChat _ _ _, .anthropicChat => true
  | .anthropicText _ _, .anthropicText => true
  | _, _ => false

/-- The request state the preprocessor sees. -/
structure TransformReq where
  retryCount : Nat
  inboundApi : APIFormat
  outboundApi : APIFormat
  body : RequestBody
deriving Repr, DecidableEq

/-- `transformOutboundPayload`, embedded from this repository's
preprocessor (unnamed part_013, lines 15-31): it checks `retryCount`
to avoid duplicate processing and then deliberately returns without
validating or transforming anything ("pure passthrough mode"); on both
paths the request is unchanged. -/
def transformOutboundPayload (req : TransformReq) : TransformReq :=
  if req.retryCount > 0 then req
  else req

/-- Claim C1 (amended): the transform preprocessor of this repository is
a pure passthrough.  For every request, new or retried, the body and the
format tags are returned unchanged; in particular a body arriving in the
inbound schema still has the inbound schema afterwards even when the
outbound format differs. -/
theorem C1_amended (req : TransformReq) :
    (transformOutboundPayload req).body = req.body ∧
      (transformOutboundPayload req).inboundApi = req.inboundApi ∧
      (transformOutboundPayload req).outboundApi = req.outboundApi := by
  unfold transformOutboundPayload
  split <;> exact ⟨rfl, rfl, rfl⟩

/-- A new OpenAI-chat request bound for an Anthropic-chat upstream. -/
def rC1 : TransformReq :=
  { retryCount := 0, inboundApi := .openai, outboundApi := .anthropicChat
    body := .openaiChat "gpt-4o" [("user", "hi")] }

/-- Claim C1 counterexample: a new (`retryCount = 0`) OpenAI-chat request
whose outbound format is Anthropic-chat leaves the preprocessor with its
body still in the OpenAI-chat schema, so the body does not conform to
the outbound API format as the claim requires. -/
theorem C1_counterexample :
    rC1.retryCount = 0 ∧ rC1.inboundApi ≠ rC1.outboundApi ∧
      conformsToFormat rC1.body rC1.inboundApi = true ∧
      conformsToFormat (transformOutboundPayload rC1).body rC1.outboundApi
        = false := by
  decide

/-! ### Claim C5: 429 classification and automatic retry -/

/-- Key-pool side effect performed by a response-classifier branch. -/
inductive KeyAction
  | noAction
  | markRateLimited
  | disableQuota
  | disableRevoked
deriving Repr, DecidableEq

/-- What a branch does with the request: `retry` models
`reenqueueRequest` followed by `throw new RetryableError` (nothing is
written to the client); `surface` models setting a `proxy_note` and
letting `handleUpstreamErrors` send the error to the client. -/
inductive ErrorOutcome
  | retry (action : KeyAction)
  | surface (action : KeyAction)
deriving Repr, DecidableEq

/-- `handleAnthropicRateLimitError` (response middleware lines 443-454),
keyed on `error.type`. -/
def handleAnthropicRateLimitError (errorType : Option String) : ErrorOutcome :=
  if errorType = some "rate_limit_error" then .retry .markRateLimited
  else .surface .noAction

/-- `handleAwsRateLimitError` (lines 456-472), keyed on `error.type`. -/
def handleAwsRateLimitError (errorType : Option String) : ErrorOutcome :=
  match errorType with
  | some "ThrottlingException" => .retry .markRateLimited
  | some "ModelNotReadyException" => .surface .noAction
  | _ => .surface .noAction

/-- `handleGcpRateLimitError` (lines 474-485). -/
def handleGcpRateLimitError (errorType : Option String) : ErrorOutcome :=
  if errorType = some "RESOURCE_EXHAUSTED" then .retry .markRateLimited
  else .surface .noAction

/-- `handleOpenAIRateLimitError` (lines 487-526):
`messageMatchesPerDay` is whether the error message matches
`/on requests per day/`; per-day limits still mark the key rate-limited
but surface instead of retrying. -/
def handleOpenAIRateLimitError (errorType : Option String)
    (messageMatchesPerDay : Bool) : ErrorOutcome :=
  match errorType with
  | some "insufficient_quota" => .surface .disableQuota
  | some "invalid_request_error" => .surface .disableQuota
  | some "access_terminated" => .surface .disableRevoked
  | some "billing_not_active" => .surface .disableQuota
  | some "requests" =>
    if messageMatchesPerDay then .surface .markRateLimited
    else .retry .markRateLimited
  | some "tokens" =>
    if messageMatchesPerDay then .surface .markRateLimited
    else .retry .markRateLimited
  | _ => .surface .noAction

/-- `handleAzureRateLimitError` (lines 528-542), keyed on `error.code`;
also used for Mistral. -/
def handleAzureRateLimitError (code : Option String) : ErrorOutcome :=
  if code = some "429" then .retry .markRateLimited
  else .surface .noAction

/-- `handleGoogleAIRateLimitError` (lines 581-595), keyed on
`error.status`. -/
def handleGoogleAIRateLimitError (status : Option String) : ErrorOutcome :=
  if status = some "RESOURCE_EXHAUSTED" then .retry .markRateLimited
  else .surface .noAction

/-- Errors caught around the SSE pipeline of `handleStreamedResponse`. -/
inductive StreamErr
  | retryableError
  | badRequestError
  | otherError
deriving Repr, DecidableEq

/-- The catch handler of `handleStreamedResponse` (unnamed part_011,
lines 114-144): a `RetryableError` raised inside the SSE pipeline leads
to `keyPool.markRateLimited` plus `reenqueueRequest` directly in the
streaming response handler, without passing through
`handleUpstreamErrors`. -/
def handleStreamedResponseCatch : StreamErr → ErrorOutcome
  | .retryableError => .retry .markRateLimited
  | .badRequestError => .surface .noAction
  | .otherError => .surface .noAction

/-- Claim C5 (amended): every 429 classified as rate-limit/throttling
(Anthropic `rate_limit_error`, AWS `ThrottlingException`, GCP and Google
AI `RESOURCE_EXHAUSTED`, Azure/Mistral code 429, OpenAI `requests` or
`tokens` without a per-day message) marks the key rate-limited and
re-enqueues instead of surfacing; OpenAI per-day 429s mark the key but
surface; and, beyond the classifier, the streaming response handler also
triggers a retry (with `markRateLimited`) when the SSE pipeline raises a
retryable error. -/
theorem C5_amended :
    handleAnthropicRateLimitError (some "rate_limit_error")
        = .retry .markRateLimited ∧
      handleAwsRateLimitError (some "ThrottlingException")
        = .retry .markRateLimited ∧
      handleGcpRateLimitError (some "RESOURCE_EXHAUSTED")
        = .retry .markRateLimited ∧
      handleOpenAIRateLimitError (some "requests") false
        = .retry .markRateLimited ∧
      handleOpenAIRateLimitError (some "tokens") false
        = .retry .markRateLimited ∧
      handleAzureRateLimitError (some "429") = .retry .markRateLimited ∧
      handleGoogleAIRateLimitError (some "RESOURCE_EXHAUSTED")
        = .retry .markRateLimited ∧
      handleOpenAIRateLimitError (some "requests") true
        = .surface .markRateLimited ∧
      handleStreamedResponseCatch .retryableError = .retry .markRateLimited := by
  decide

/-- Claim C5 counterexample (to the "only the response classifier
triggers automatic retry" conjunct): the streaming response handler,
embedded from part_011 and distinct from the `handleUpstreamErrors`
classifier, re-enqueues the request when it catches a `RetryableError`
from the SSE pipeline. -/
theorem C5_counterexample :
    handleStreamedResponseCatch StreamErr.retryableError
      = ErrorOutcome.retry KeyAction.markRateLimited := by
  decide

end OaiProxy
